import Mathlib

/-!
Verification of the odoo-linter repository.

The repository is a VS Code linter for Odoo modules.  Its rule logic lives in
`src/odoo-linter-js/odooLinter.js` (tree-sitter based rules), in
`src/odoo-linter-js/extension.js` and `src/odoo-linter/src/extension.ts`
(regex / filesystem based rules).  This file shallowly embeds the rule
functions the claims talk about and proves or refutes each claim.

Modelling conventions:
* tree-sitter nodes become the `TSNode` / `TSForest` mutual inductive: each
  node carries its kind label (`node.type` in JS), its source text, its
  named-node flag, the field label attached to the edge from its parent
  (`childForFieldName` looks children up by that label), its start and end
  position, and its children in order;
* JS exceptions (null dereference, fs errors) become `Except Unit`;
  a filesystem read becomes an `Except Unit` or `Option` parameter;
* file contents are Lean `String`s, and all scanning is done on the
  underlying `List Char` with structurally recursive functions so that
  every definition kernel-evaluates on concrete inputs;
* VS Code `Uri` values become `List String` segment lists, and
  `Uri.joinPath u ".."` becomes `List.dropLast`.
-/

/-- A position/range in a document: start row, start column, end row, end
column, exactly the four arguments of `new vscode.Range(...)`. -/
structure DocRange where
  startRow : Nat
  startCol : Nat
  endRow : Nat
  endCol : Nat

/-- `vscode.DiagnosticSeverity` (only the three values the linter uses). -/
inductive Severity where
  | error
  | warning
  | information

/-- `vscode.Diagnostic`: the range, message and severity the linter passes to
`new vscode.Diagnostic(range, message, severity)`. -/
structure Diagnostic where
  range : DocRange
  message : String
  severity : Severity

mutual
/-- A tree-sitter syntax node: kind label (`type`), source `text`, whether it
is a named node, the field label of the edge from its parent (used by
`childForFieldName`), start/end positions, and the ordered children. -/
inductive TSNode where
  | node (kind text : String) (named : Bool) (fieldLabel : Option String)
      (startRow startCol endRow endCol : Nat) (children : TSForest)
/-- The ordered list of children of a tree-sitter node. -/
inductive TSForest where
  | nil
  | cons (head : TSNode) (tail : TSForest)
end

def TSNode.kind : TSNode → String
  | .node k _ _ _ _ _ _ _ _ => k

def TSNode.text : TSNode → String
  | .node _ t _ _ _ _ _ _ _ => t

def TSNode.named : TSNode → Bool
  | .node _ _ nm _ _ _ _ _ _ => nm

def TSNode.fieldLabel : TSNode → Option String
  | .node _ _ _ f _ _ _ _ _ => f

def TSNode.startRow : TSNode → Nat
  | .node _ _ _ _ r _ _ _ _ => r

def TSNode.startCol : TSNode → Nat
  | .node _ _ _ _ _ c _ _ _ => c

def TSNode.endRow : TSNode → Nat
  | .node _ _ _ _ _ _ r _ _ => r

def TSNode.endCol : TSNode → Nat
  | .node _ _ _ _ _ _ _ c _ => c

def TSNode.children : TSNode → TSForest
  | .node _ _ _ _ _ _ _ _ cs => cs

def TSForest.toList : TSForest → List TSNode
  | .nil => []
  | .cons h t => h :: t.toList

/-- `node.childForFieldName(f)`: the first child whose edge carries field
label `f`, or `none` (JS `null`) when there is no such child. -/
def TSNode.childForFieldName (n : TSNode) (f : String) : Option TSNode :=
  n.children.toList.find? (fun c => c.fieldLabel = some f)

/-- `node.namedChildren`: the children that are named nodes. -/
def TSNode.namedChildren (n : TSNode) : List TSNode :=
  n.children.toList.filter (fun c => c.named)

/-- `node.firstChild` (`null` becomes `none`). -/
def TSNode.firstChild (n : TSNode) : Option TSNode :=
  n.children.toList.head?

/-- The i-th child of a node; `childAt n 1` is `n.firstChild.nextSibling`,
`childAt n 2` is the sibling after that. -/
def TSNode.childAt (n : TSNode) (i : Nat) : Option TSNode :=
  n.children.toList.get? i

mutual
/-- `getNodesByType(node, ...types)` from `odooLinter.js` lines 287-299:
push the node itself when its kind is in `types`, then recurse into the
children left to right, concatenating the results. -/
def getNodesByType (types : List String) : TSNode → List TSNode
  | .node k t nm f sr sc er ec cs =>
    (if types.contains k then [TSNode.node k t nm f sr sc er ec cs] else [])
      ++ getNodesByTypeF types cs
/-- The child loop of `getNodesByType`. -/
def getNodesByTypeF (types : List String) : TSForest → List TSNode
  | .nil => []
  | .cons h t => getNodesByType types h ++ getNodesByTypeF types t
end

mutual
/-- Modelled from the spec: the pre-order visit sequence of a tree (each
node before its children, siblings left to right), used to state what
`collectNodes` alias `getNodesByType` must return. -/
def preorderSpec : TSNode → List TSNode
  | .node k t nm f sr sc er ec cs =>
    TSNode.node k t nm f sr sc er ec cs :: preorderSpecF cs
/-- Pre-order visit sequence of a forest. -/
def preorderSpecF : TSForest → List TSNode
  | .nil => []
  | .cons h t => preorderSpec h ++ preorderSpecF t
end

mutual
theorem getNodesByType_eq_filter (types : List String) (t : TSNode) :
    getNodesByType types t
      = (preorderSpec t).filter (fun n => types.contains n.kind) := by
  cases t with
  | node k txt nm f sr sc er ec cs =>
    rw [getNodesByType, preorderSpec, List.filter_cons,
      getNodesByTypeF_eq_filter types cs]
    by_cases h : k ∈ types
    · simp [TSNode.kind, h]
    · simp [TSNode.kind, h]
theorem getNodesByTypeF_eq_filter (types : List String) (cs : TSForest) :
    getNodesByTypeF types cs
      = (preorderSpecF cs).filter (fun n => types.contains n.kind) := by
  cases cs with
  | nil => rw [getNodesByTypeF, preorderSpecF, List.filter_nil]
  | cons h t =>
    rw [getNodesByTypeF, preorderSpecF, List.filter_append,
      getNodesByType_eq_filter types h, getNodesByTypeF_eq_filter types t]
end

/-- C2: `getNodesByType` (the spec calls it `collectNodes`) returns exactly
the pre-order visited nodes whose kind is in the requested kind set, in
pre-order (parent before children, siblings left to right), each visited
node contributing at most once (a duplicate-free visit sequence yields a
duplicate-free result); it is a total function, so it returns the empty
list rather than an error when nothing matches, and running it twice on the
same tree yields the same sequence. -/
theorem claim_C2 (kinds : List String) (root : TSNode) :
    getNodesByType kinds root
      = (preorderSpec root).filter (fun n => kinds.contains n.kind)
    ∧ ((preorderSpec root).Nodup → (getNodesByType kinds root).Nodup) := by
  refine ⟨getNodesByType_eq_filter kinds root, fun h => ?_⟩
  rw [getNodesByType_eq_filter kinds root]
  exact h.filter _

def c2WitnessTree : TSNode :=
  TSNode.node "identifier" "x" true none 0 0 0 1 TSForest.nil

theorem claim_C2_witness :
    (preorderSpec c2WitnessTree).Nodup
    ∧ (getNodesByType ["identifier"] c2WitnessTree).Nodup :=
  ⟨by simp [c2WitnessTree, preorderSpec, preorderSpecF],
   (claim_C2 ["identifier"] c2WitnessTree).2
     (by simp [c2WitnessTree, preorderSpec, preorderSpecF])⟩

/-- `findOdooModuleRoot` loop body from `extension.ts` lines 331-352 and
`extension.js` lines 180-194, with the remaining iteration count made
explicit (the source runs `for (let i = 0; i < 10; i++)`): check the
current directory for `__manifest__.py` (the `hasManifest` parameter models
whether `workspace.fs.stat` succeeds), otherwise step to the parent
directory, stopping with `none` at the filesystem root (where the parent
equals the directory itself) or when the iteration budget runs out. -/
def findRootAux (hasManifest : List String → Bool) :
    Nat → List String → Option (List String)
  | 0, _ => none
  | fuel + 1, currentDir =>
    if hasManifest currentDir then
      some currentDir
    else
      let parentDir := currentDir.dropLast
      if parentDir = currentDir then none
      else findRootAux hasManifest fuel parentDir

/-- `findOdooModuleRoot(fileUri)`: start at the directory containing the
file (`Uri.joinPath(fileUri, "..")` becomes `dropLast`) and walk up at most
10 levels. -/
def findOdooModuleRoot (hasManifest : List String → Bool)
    (fileUri : List String) : Option (List String) :=
  findRootAux hasManifest 10 fileUri.dropLast

theorem findRootAux_eq_find? (hasManifest : List String → Bool) :
    ∀ (fuel : Nat) (cur : List String),
      findRootAux hasManifest fuel cur
        = ((List.range fuel).map
            (fun k => (fun d : List String => d.dropLast)^[k] cur)).find?
            hasManifest := by
  intro fuel
  induction fuel with
  | zero => intro cur; rfl
  | succ n ih =>
    intro cur
    rw [findRootAux, List.range_succ_eq_map]
    simp only [List.map_cons, Function.iterate_zero_apply, List.map_map]
    by_cases h : hasManifest cur
    · simp [h, List.find?_cons_of_pos]
    · rw [List.find?_cons_of_neg _ (by simpa using h)]
      simp only [h, if_false]
      by_cases hroot : cur.dropLast = cur
      · rw [if_pos hroot]
        refine (List.find?_eq_none.mpr ?_).symm
        intro x hx
        obtain ⟨k, -, rfl⟩ := List.mem_map.mp hx
        simp only [Function.comp_apply, Function.iterate_fixed hroot]
        simpa using h
      · rw [if_neg hroot, ih cur.dropLast]
        congr 1

/-- C3: module-root resolution examines exactly the first 10 ancestor
directories of the file (the containing directory and nine levels above
it), returning the first one that has a manifest and `none` (NotFound) when
none of those 10 has one; being a total function of the manifest predicate
and the path, it neither loops nor raises. -/
theorem claim_C3 (hasManifest : List String → Bool) (fileUri : List String) :
    findOdooModuleRoot hasManifest fileUri
      = ((List.range 10).map
          (fun k =>
            (fun d : List String => d.dropLast)^[k] fileUri.dropLast)).find?
          hasManifest :=
  findRootAux_eq_find? hasManifest 10 fileUri.dropLast

/-- JS `String.prototype.includes` on char lists: `sub` occurs contiguously
in `hay` (the empty list occurs everywhere). -/
def containsList (hay sub : List Char) : Bool :=
  match hay with
  | [] => sub.isEmpty
  | _ :: t => sub.isPrefixOf hay || containsList t sub

/-- JS `s.includes(sub)`. -/
def containsStr (s sub : String) : Bool :=
  containsList s.data sub.data

/-- JS `s.endsWith(suffix)`. -/
def jsEndsWith (s suffix : String) : Bool :=
  suffix.data.isSuffixOf s.data

/-- JS `s.split(sep)` for a one-character separator. -/
def splitOnChar (sep : Char) : List Char → List (List Char)
  | [] => [[]]
  | c :: cs =>
    if c = sep then [] :: splitOnChar sep cs
    else
      match splitOnChar sep cs with
      | [] => [[c]]
      | l :: ls => (c :: l) :: ls

/-- JS `s.replace(pat, repl)` with a string pattern: replace only the first
occurrence, leave the string unchanged when the pattern does not occur. -/
def replaceFirstList (pat repl : List Char) : List Char → List Char
  | [] => []
  | c :: cs =>
    if pat.isPrefixOf (c :: cs) then repl ++ (c :: cs).drop pat.length
    else c :: replaceFirstList pat repl cs

/-- JS `s.replace(pat, repl)` lifted to `String`. -/
def jsReplaceFirst (s pat repl : String) : String :=
  String.mk (replaceFirstList pat.data repl.data s.data)

/-- The whitespace characters of JS `\s` / `trim()` (modelled by the ASCII
subset: space, tab, line feed, carriage return, vertical tab, form feed). -/
def isJsWsChar (c : Char) : Bool :=
  c = ' ' || c = '\t' || c = '\n' || c = '\r' || c = '\x0b' || c = '\x0c'

/-- The fixed allow-list of `odooLinter.js` line 114: the quoted literal
texts accepted for the license value. -/
def validLicenses : List String :=
  ["\x27LGPL-3\x27", "\x27AGPL-3\x27", "\x27OEEL-1\x27", "\x27OPL-1\x27",
   "\x27Other OSI approved licence\x27"]

/-- Message of `odooLinter.js` line 107. -/
def authorMsg : String :=
  "Module author is \x27Odoo S.A.\x27. Consider changing it to your name or company."

/-- Message of `odooLinter.js` line 124 (`t` is the raw value-node text). -/
def invalidLicenseMsg (t : String) : String :=
  "Invalid license \x27" ++ t ++ "\x27. Recommended licenses are LGPL-3, AGPL-3, OEEL-1, OPL-1."

/-- Message of `odooLinter.js` line 140. -/
def missingLicenseMsg : String :=
  "The module manifest is missing the \x27license\x27 key."

/-- The `vscode.Range` built from a node in `checkManifest`. -/
def nodeRange (n : TSNode) : DocRange :=
  ⟨n.startRow, n.startCol, n.endRow, n.endCol⟩

/-- Whether a key-node text is the author key (`odooLinter.js` line 96). -/
def authorKeyText (t : String) : Bool :=
  t = "\x27author\x27" || t = "\"author\""

/-- Whether a key-node text is the license key (`odooLinter.js` line 111). -/
def licenseKeyText (t : String) : Bool :=
  t = "\x27license\x27" || t = "\"license\""

/-- One iteration of the `for (const pairNode of pairNodes)` loop of
`checkManifest` (`odooLinter.js` lines 92-129).  The accumulator is the
diagnostics array plus the `hasLicense` flag. -/
def manifestStep (acc : List Diagnostic × Bool) (pairNode : TSNode) :
    List Diagnostic × Bool :=
  match pairNode.childForFieldName "key" with
  | none => acc
  | some keyNode =>
    if authorKeyText keyNode.text then
      match pairNode.childForFieldName "value" with
      | some valueNode =>
        if containsStr valueNode.text "Odoo S.A." then
          (acc.1 ++ [⟨nodeRange valueNode, authorMsg, .warning⟩], acc.2)
        else acc
      | none => acc
    else if licenseKeyText keyNode.text then
      match pairNode.childForFieldName "value" with
      | some valueNode =>
        if !(validLicenses.contains valueNode.text) then
          (acc.1 ++ [⟨nodeRange valueNode, invalidLicenseMsg valueNode.text, .warning⟩],
           true)
        else (acc.1, true)
      | none => (acc.1, true)
    else acc

/-- `checkManifest(diagnostics, document, tree)` from `odooLinter.js` lines
85-145: take the first dictionary node, loop over all its pair nodes
collecting author / invalid-license warnings and the `hasLicense` flag,
then append the missing-license warning when no license pair was seen. -/
def checkManifest (root : TSNode) : List Diagnostic :=
  match getNodesByType ["dictionary"] root with
  | [] => []
  | dictNode :: _ =>
    let r := (getNodesByType ["pair"] dictNode).foldl manifestStep ([], false)
    if !r.2 then r.1 ++ [⟨nodeRange dictNode, missingLicenseMsg, .warning⟩]
    else r.1

/-- Whether a pair node has a key child whose text is the license key. -/
def isLicensePair (p : TSNode) : Bool :=
  match p.childForFieldName "key" with
  | some k => licenseKeyText k.text
  | none => false

/-- Whether a pair node has a key child whose text is the author key. -/
def isAuthorPair (p : TSNode) : Bool :=
  match p.childForFieldName "key" with
  | some k => authorKeyText k.text
  | none => false

/-- The author warnings a single pair node contributes in `checkManifest`. -/
def pairAuthorDiags (p : TSNode) : List Diagnostic :=
  if isAuthorPair p then
    match p.childForFieldName "value" with
    | some v =>
      if containsStr v.text "Odoo S.A." then [⟨nodeRange v, authorMsg, .warning⟩]
      else []
    | none => []
  else []

/-- The invalid-license warnings a single pair node contributes in
`checkManifest`. -/
def pairInvalidDiags (p : TSNode) : List Diagnostic :=
  if isLicensePair p then
    match p.childForFieldName "value" with
    | some v =>
      if !(validLicenses.contains v.text) then
        [⟨nodeRange v, invalidLicenseMsg v.text, .warning⟩]
      else []
    | none => []
  else []

/-- Whether the first dictionary of the tree has a pair with a license key
(the value of the `hasLicense` flag at the end of the loop). -/
def manifestHasLicenseKey (root : TSNode) : Bool :=
  match getNodesByType ["dictionary"] root with
  | [] => false
  | d :: _ => (getNodesByType ["pair"] d).any isLicensePair

/-- Recognizes the messages produced by the invalid-license branch: they
are exactly the messages starting with "Invalid license". -/
def isInvalidLicenseMsg (s : String) : Bool :=
  "Invalid license".data.isPrefixOf s.data

theorem strData_append (a b : String) : (a ++ b).data = a.data ++ b.data := rfl

theorem isPrefixOf_append_self (l r : List Char) : l.isPrefixOf (l ++ r) = true := by
  induction l with
  | nil => simp [List.isPrefixOf]
  | cons c cs ih => simp [List.isPrefixOf, ih]

theorem isInvalid_invalidMsg (t : String) :
    isInvalidLicenseMsg (invalidLicenseMsg t) = true := by
  unfold isInvalidLicenseMsg invalidLicenseMsg
  rw [strData_append, strData_append,
    show ("Invalid license \x27").data
        = ("Invalid license").data ++ [' ', '\x27'] from by decide,
    List.append_assoc, List.append_assoc]
  exact isPrefixOf_append_self _ _

theorem invalidMsg_ne_missing (t : String) :
    invalidLicenseMsg t ≠ missingLicenseMsg := by
  intro h
  have hx := isInvalid_invalidMsg t
  rw [h] at hx
  exact absurd hx (by decide)

theorem authorKey_not_licenseKey {t : String} (h : authorKeyText t = true) :
    licenseKeyText t = false := by
  have h2 : t = "\x27author\x27" ∨ t = "\"author\"" := by
    simpa [authorKeyText] using h
  rcases h2 with h2 | h2 <;> rw [h2] <;> decide

theorem manifestStep_eq (acc : List Diagnostic × Bool) (p : TSNode) :
    manifestStep acc p
      = (acc.1 ++ (pairAuthorDiags p ++ pairInvalidDiags p),
         acc.2 || isLicensePair p) := by
  cases hk : p.childForFieldName "key" with
  | none =>
    simp [manifestStep, pairAuthorDiags, pairInvalidDiags, isAuthorPair,
      isLicensePair, hk]
  | some keyNode =>
    by_cases ha : authorKeyText keyNode.text = true
    · have hl := authorKey_not_licenseKey ha
      cases hv : p.childForFieldName "value" with
      | none =>
        simp [manifestStep, pairAuthorDiags, pairInvalidDiags, isAuthorPair,
          isLicensePair, hk, hv, ha, hl]
      | some v =>
        by_cases hc : containsStr v.text "Odoo S.A." = true
        · simp [manifestStep, pairAuthorDiags, pairInvalidDiags, isAuthorPair,
            isLicensePair, hk, hv, ha, hl, hc]
        · simp [manifestStep, pairAuthorDiags, pairInvalidDiags, isAuthorPair,
            isLicensePair, hk, hv, ha, hl,
            show containsStr v.text "Odoo S.A." = false from by
              simpa using hc]
    · have ha2 : authorKeyText keyNode.text = false := by simpa using ha
      by_cases hli : licenseKeyText keyNode.text = true
      · cases hv : p.childForFieldName "value" with
        | none =>
          simp [manifestStep, pairAuthorDiags, pairInvalidDiags, isAuthorPair,
            isLicensePair, hk, hv, ha2, hli]
        | some v =>
          by_cases hval : v.text ∈ validLicenses
          · simp [manifestStep, pairAuthorDiags, pairInvalidDiags, isAuthorPair,
              isLicensePair, hk, hv, ha2, hli, hval]
          · simp [manifestStep, pairAuthorDiags, pairInvalidDiags, isAuthorPair,
              isLicensePair, hk, hv, ha2, hli, hval]
      · have hli2 : licenseKeyText keyNode.text = false := by simpa using hli
        simp [manifestStep, pairAuthorDiags, pairInvalidDiags, isAuthorPair,
          isLicensePair, hk, ha2, hli2]

theorem foldl_manifestStep (pairs : List TSNode) :
    ∀ acc : List Diagnostic × Bool,
      pairs.foldl manifestStep acc
        = (acc.1 ++ pairs.flatMap (fun p => pairAuthorDiags p ++ pairInvalidDiags p),
           acc.2 || pairs.any isLicensePair) := by
  induction pairs with
  | nil => intro acc; simp
  | cons p ps ih =>
    intro acc
    rw [List.foldl_cons, manifestStep_eq, ih]
    simp [List.flatMap_cons, List.append_assoc, Bool.or_assoc]

theorem mem_pairAuthorDiags {d : Diagnostic} {p : TSNode}
    (h : d ∈ pairAuthorDiags p) : d.message = authorMsg := by
  unfold pairAuthorDiags at h
  split at h
  · split at h
    · split at h
      · rw [List.mem_singleton] at h; subst h; rfl
      · simp at h
    · simp at h
  · simp at h

theorem mem_pairInvalidDiags {d : Diagnostic} {p : TSNode}
    (h : d ∈ pairInvalidDiags p) : ∃ t, d.message = invalidLicenseMsg t := by
  unfold pairInvalidDiags at h
  split at h
  · split at h
    · split at h
      · rw [List.mem_singleton] at h; subst h
        exact ⟨_, rfl⟩
      · simp at h
    · simp at h
  · simp at h

theorem pairInvalidDiags_eq_nil {p : TSNode} (h : isLicensePair p = false) :
    pairInvalidDiags p = [] := by
  simp [pairInvalidDiags, h]

theorem checkManifest_eq (root dictNode : TSNode) (rest : List TSNode)
    (heq : getNodesByType ["dictionary"] root = dictNode :: rest) :
    checkManifest root
      = (if (getNodesByType ["pair"] dictNode).any isLicensePair then
          (getNodesByType ["pair"] dictNode).flatMap
            (fun p => pairAuthorDiags p ++ pairInvalidDiags p)
        else
          (getNodesByType ["pair"] dictNode).flatMap
            (fun p => pairAuthorDiags p ++ pairInvalidDiags p)
            ++ [⟨nodeRange dictNode, missingLicenseMsg, .warning⟩]) := by
  rw [checkManifest, heq]
  simp only [foldl_manifestStep]
  by_cases h : (getNodesByType ["pair"] dictNode).any isLicensePair
  · simp [h]
  · simp [h]

/-- C4: on the manifest rule, the missing-license-key warning and the
invalid-license-value warning are mutually exclusive within one run of
`checkManifest` on a manifest document (a tree that does contain a
dictionary literal): when no pair declares the license key, exactly one
missing-key warning is emitted and no invalid-license message appears; when
some pair declares the license key, no missing-key warning is emitted. -/
theorem claim_C4 (root : TSNode)
    (hdict : getNodesByType ["dictionary"] root ≠ []) :
    (manifestHasLicenseKey root = false →
      ((checkManifest root).filter
          (fun d => decide (d.message = missingLicenseMsg))).length = 1
      ∧ (checkManifest root).filter
          (fun d => isInvalidLicenseMsg d.message) = [])
    ∧ (manifestHasLicenseKey root = true →
      (checkManifest root).filter
          (fun d => decide (d.message = missingLicenseMsg)) = []) := by
  cases heq : getNodesByType ["dictionary"] root with
  | nil => exact absurd heq hdict
  | cons dictNode rest =>
    have hkey : manifestHasLicenseKey root
        = (getNodesByType ["pair"] dictNode).any isLicensePair := by
      rw [manifestHasLicenseKey, heq]
    have hflat : ∀ d ∈ (getNodesByType ["pair"] dictNode).flatMap
        (fun p => pairAuthorDiags p ++ pairInvalidDiags p),
        decide (d.message = missingLicenseMsg) = false := by
      intro d hd
      obtain ⟨p, -, hp⟩ := List.mem_flatMap.mp hd
      rcases List.mem_append.mp hp with hp | hp
      · rw [mem_pairAuthorDiags hp]; decide
      · obtain ⟨t, ht⟩ := mem_pairInvalidDiags hp
        rw [ht]
        exact decide_eq_false (invalidMsg_ne_missing t)
    constructor
    · intro hnol
      rw [hkey] at hnol
      have hcm : checkManifest root
          = (getNodesByType ["pair"] dictNode).flatMap
              (fun p => pairAuthorDiags p ++ pairInvalidDiags p)
            ++ [⟨nodeRange dictNode, missingLicenseMsg, .warning⟩] := by
        rw [checkManifest_eq root dictNode rest heq, if_neg (by simp [hnol])]
      constructor
      · rw [hcm, List.filter_append,
          List.filter_eq_nil_iff.mpr (by
            intro d hd
            simpa using hflat d hd)]
        simp
      · rw [hcm, List.filter_append]
        have h1 : ((getNodesByType ["pair"] dictNode).flatMap
            (fun p => pairAuthorDiags p ++ pairInvalidDiags p)).filter
              (fun d => isInvalidLicenseMsg d.message) = [] := by
          apply List.filter_eq_nil_iff.mpr
          intro d hd
          obtain ⟨p, hpmem, hp⟩ := List.mem_flatMap.mp hd
          have hnp : isLicensePair p = false := by
            by_contra hcon
            have : (getNodesByType ["pair"] dictNode).any isLicensePair = true :=
              List.any_eq_true.mpr ⟨p, hpmem, by simpa using hcon⟩
            rw [this] at hnol
            cases hnol
          rw [pairInvalidDiags_eq_nil hnp, List.append_nil] at hp
          rw [mem_pairAuthorDiags hp]
          decide
        rw [h1]
        simp [isInvalidLicenseMsg]
        decide
    · intro hlic
      rw [hkey] at hlic
      have hcm : checkManifest root
          = (getNodesByType ["pair"] dictNode).flatMap
              (fun p => pairAuthorDiags p ++ pairInvalidDiags p) := by
        rw [checkManifest_eq root dictNode rest heq, if_pos hlic]
      rw [hcm]
      apply List.filter_eq_nil_iff.mpr
      intro d hd
      simpa using hflat d hd

def c4Tree : TSNode :=
  TSNode.node "dictionary" "\x7b\x7d" true none 0 0 0 2 TSForest.nil

theorem claim_C4_witness :
    getNodesByType ["dictionary"] c4Tree ≠ []
    ∧ manifestHasLicenseKey c4Tree = false
    ∧ ((checkManifest c4Tree).filter
        (fun d => decide (d.message = missingLicenseMsg))).length = 1
    ∧ (checkManifest c4Tree).filter
        (fun d => isInvalidLicenseMsg d.message) = [] := by
  have hne : getNodesByType ["dictionary"] c4Tree ≠ [] := by
    rw [show getNodesByType ["dictionary"] c4Tree = [c4Tree] from rfl]
    simp
  exact ⟨hne, rfl, ((claim_C4 c4Tree hne).1 rfl).1, ((claim_C4 c4Tree hne).1 rfl).2⟩

theorem filter_pairAuthorDiags_invalid (q : TSNode) :
    (pairAuthorDiags q).filter (fun d => isInvalidLicenseMsg d.message) = [] := by
  apply List.filter_eq_nil_iff.mpr
  intro d hd
  rw [mem_pairAuthorDiags hd]
  decide

theorem filter_pairInvalidDiags_invalid (q : TSNode) :
    (pairInvalidDiags q).filter (fun d => isInvalidLicenseMsg d.message)
      = pairInvalidDiags q := by
  apply List.filter_eq_self.mpr
  intro d hd
  obtain ⟨t, ht⟩ := mem_pairInvalidDiags hd
  simp [ht, isInvalid_invalidMsg]

theorem flatMap_eq_flatMap_filter {α β : Type} (l : List α) (pred : α → Bool)
    (f : α → List β) (h : ∀ a ∈ l, pred a = false → f a = []) :
    l.flatMap f = (l.filter pred).flatMap f := by
  induction l with
  | nil => rfl
  | cons a t ih =>
    rw [List.flatMap_cons, List.filter_cons]
    by_cases ha : pred a
    · rw [if_pos ha, List.flatMap_cons,
        ih (fun x hx => h x (List.mem_cons_of_mem a hx))]
    · rw [if_neg ha, h a (List.mem_cons_self a t) (by simpa using ha),
        List.nil_append, ih (fun x hx => h x (List.mem_cons_of_mem a hx))]

/-- The invalid-license findings of `checkManifest` are exactly the ones
contributed by the license pairs of the first dictionary. -/
theorem checkManifest_filter_invalid (root dictNode : TSNode) (rest : List TSNode)
    (heq : getNodesByType ["dictionary"] root = dictNode :: rest)
    (hany : (getNodesByType ["pair"] dictNode).any isLicensePair = true) :
    (checkManifest root).filter (fun d => isInvalidLicenseMsg d.message)
      = ((getNodesByType ["pair"] dictNode).filter isLicensePair).flatMap
          pairInvalidDiags := by
  rw [checkManifest_eq root dictNode rest heq, if_pos hany, List.filter_flatMap]
  have hstep : ∀ q : TSNode,
      (pairAuthorDiags q ++ pairInvalidDiags q).filter
        (fun d => isInvalidLicenseMsg d.message) = pairInvalidDiags q := by
    intro q
    rw [List.filter_append, filter_pairAuthorDiags_invalid,
      filter_pairInvalidDiags_invalid, List.nil_append]
  rw [show (fun q => (pairAuthorDiags q ++ pairInvalidDiags q).filter
        (fun d => isInvalidLicenseMsg d.message)) = pairInvalidDiags
      from funext hstep]
  apply flatMap_eq_flatMap_filter
  intro q _ hq
  exact pairInvalidDiags_eq_nil hq

/-- C5: on a manifest whose first dictionary has exactly one license pair:
with value text `\x27MIT\x27` the invalid-license rule emits exactly one
Warning whose message contains "MIT"; with value text `\x27LGPL-3\x27` (a
member of the fixed allow-list `validLicenses`) the invalid-license rule
emits nothing. -/
theorem claim_C5 (root dictNode : TSNode) (rest : List TSNode) (p v : TSNode)
    (hdict : getNodesByType ["dictionary"] root = dictNode :: rest)
    (hlic : (getNodesByType ["pair"] dictNode).filter isLicensePair = [p])
    (hval : p.childForFieldName "value" = some v) :
    (v.text = "\x27MIT\x27" →
      (checkManifest root).filter (fun d => isInvalidLicenseMsg d.message)
        = [⟨nodeRange v, invalidLicenseMsg v.text, Severity.warning⟩]
      ∧ containsStr (invalidLicenseMsg v.text) "MIT" = true
      ∧ ∃ d ∈ checkManifest root, isInvalidLicenseMsg d.message = true
          ∧ containsStr d.message "MIT" = true ∧ d.severity = Severity.warning)
    ∧ (v.text = "\x27LGPL-3\x27" →
      (checkManifest root).filter (fun d => isInvalidLicenseMsg d.message) = []) := by
  have hpmem : p ∈ (getNodesByType ["pair"] dictNode).filter isLicensePair := by
    rw [hlic]; exact List.mem_singleton.mpr rfl
  have hplic : isLicensePair p = true := (List.mem_filter.mp hpmem).2
  have hany : (getNodesByType ["pair"] dictNode).any isLicensePair = true :=
    List.any_eq_true.mpr ⟨p, List.mem_of_mem_filter hpmem, by simpa using hplic⟩
  have hfil := checkManifest_filter_invalid root dictNode rest hdict hany
  rw [hlic, List.flatMap_cons, List.flatMap_nil, List.append_nil] at hfil
  constructor
  · intro hmit
    have hinv : pairInvalidDiags p
        = [⟨nodeRange v, invalidLicenseMsg v.text, Severity.warning⟩] := by
      rw [pairInvalidDiags, if_pos hplic, hval]
      simp only [hmit]
      rw [if_pos (by decide)]
    rw [hinv] at hfil
    refine ⟨hfil, by rw [hmit]; decide, ?_⟩
    refine ⟨⟨nodeRange v, invalidLicenseMsg v.text, Severity.warning⟩, ?_, ?_, ?_, rfl⟩
    · apply List.mem_of_mem_filter (p := fun d => isInvalidLicenseMsg d.message)
      rw [hfil]
      exact List.mem_singleton.mpr rfl
    · show isInvalidLicenseMsg (invalidLicenseMsg v.text) = true
      exact isInvalid_invalidMsg v.text
    · show containsStr (invalidLicenseMsg v.text) "MIT" = true
      rw [hmit]; decide
  · intro hlgpl
    have hinv : pairInvalidDiags p = [] := by
      rw [pairInvalidDiags, if_pos hplic, hval]
      simp only [hlgpl]
      rw [if_neg (by decide)]
    rw [hinv] at hfil
    exact hfil

def c5KeyNode : TSNode :=
  TSNode.node "string" "\x27license\x27" true (some "key") 1 4 1 13 TSForest.nil

def c5ValNode : TSNode :=
  TSNode.node "string" "\x27MIT\x27" true (some "value") 1 15 1 20 TSForest.nil

def c5Pair : TSNode :=
  TSNode.node "pair" "\x27license\x27: \x27MIT\x27" true none 1 4 1 20
    (TSForest.cons c5KeyNode (TSForest.cons c5ValNode TSForest.nil))

def c5Dict : TSNode :=
  TSNode.node "dictionary" "" true none 0 0 2 1 (TSForest.cons c5Pair TSForest.nil)

def c5Root : TSNode :=
  TSNode.node "module" "" true none 0 0 2 1 (TSForest.cons c5Dict TSForest.nil)

theorem claim_C5_witness :
    getNodesByType ["dictionary"] c5Root = c5Dict :: []
    ∧ (getNodesByType ["pair"] c5Dict).filter isLicensePair = [c5Pair]
    ∧ c5Pair.childForFieldName "value" = some c5ValNode
    ∧ c5ValNode.text = "\x27MIT\x27"
    ∧ (checkManifest c5Root).filter (fun d => isInvalidLicenseMsg d.message)
        = [⟨nodeRange c5ValNode, invalidLicenseMsg c5ValNode.text, Severity.warning⟩]
    ∧ containsStr (invalidLicenseMsg c5ValNode.text) "MIT" = true := by
  have h := (claim_C5 c5Root c5Dict [] c5Pair c5ValNode rfl rfl rfl).1 rfl
  exact ⟨rfl, rfl, rfl, rfl, h.1, h.2.1⟩

/-- JS `modelName.replace(/\./g, "_")`: every dot becomes an underscore. -/
def replaceDots (s : String) : String :=
  String.mk (s.data.map (fun c => if c = '.' then '_' else c))

/-- The canonical access-table row key of `extension.ts` line 304:
`model_` prefixed to the model name with dots substituted. -/
def modelRowKey (modelName : String) : String :=
  "model_" ++ replaceDots modelName

/-- Message of `extension.ts` line 314 (access file exists, no matching row). -/
def missingAccessMsg (modelName : String) : String :=
  "El modelo \x27" ++ modelName
    ++ "\x27 no tiene reglas de acceso definidas en security/ir.model.access.csv."

/-- Message of `extension.ts` line 324 (access file absent). -/
def noAccessFileMsg : String :=
  "El archivo security/ir.model.access.csv no existe en este módulo."

/-- The access-rule check of `lintModelAccess`, `extension.ts` lines
303-329: with `modelName` the `_name` value extracted earlier and
`nameLineRange` the range of the `_name` line, read
`security/ir.model.access.csv` (`none` models a failing
`workspace.fs.readFile`), split it into rows, and warn when no row text
contains the canonical key, or warn differently when the file is absent. -/
def checkModelAccessRows (modelName : String) (nameLineRange : DocRange)
    (accessCsv : Option String) : List Diagnostic :=
  match accessCsv with
  | none => [⟨nameLineRange, noAccessFileMsg, .warning⟩]
  | some content =>
    if (splitOnChar '\n' content.data).any
        (fun line => containsList line (modelRowKey modelName).data) then []
    else [⟨nameLineRange, missingAccessMsg modelName, .warning⟩]

theorem missingAccessMsg_ne_noFile (m : String) :
    missingAccessMsg m ≠ noAccessFileMsg := by
  intro h
  have h2 : (missingAccessMsg m).data[3]? = noAccessFileMsg.data[3]? := by
    rw [h]
  rw [show missingAccessMsg m
      = "El modelo \x27" ++ (m ++ "\x27 no tiene reglas de acceso definidas en security/ir.model.access.csv.")
      from by rw [missingAccessMsg, String.append_assoc]] at h2
  rw [strData_append, List.getElem?_append_left (by decide)] at h2
  exact absurd h2 (by decide)

/-- C6: for a model declaring `_name` with value `m`, the missing-access-row
rule keys on `model_` plus `m` with dots substituted; with an existing
access table none of whose rows contains that key it emits exactly one
Warning, with an absent access table it emits exactly one different
(distinguishable-by-message) Warning, and with a row containing the key it
emits nothing. -/
theorem claim_C6 (m : String) (r : DocRange) :
    modelRowKey m = "model_" ++ replaceDots m
    ∧ checkModelAccessRows m r none = [⟨r, noAccessFileMsg, Severity.warning⟩]
    ∧ (∀ content,
        (splitOnChar '\n' content.data).any
            (fun line => containsList line (modelRowKey m).data) = false →
        checkModelAccessRows m r (some content)
          = [⟨r, missingAccessMsg m, Severity.warning⟩])
    ∧ (∀ content,
        (splitOnChar '\n' content.data).any
            (fun line => containsList line (modelRowKey m).data) = true →
        checkModelAccessRows m r (some content) = [])
    ∧ missingAccessMsg m ≠ noAccessFileMsg := by
  refine ⟨rfl, rfl, ?_, ?_, missingAccessMsg_ne_noFile m⟩
  · intro content h
    rw [checkModelAccessRows, if_neg (by simp [h])]
  · intro content h
    rw [checkModelAccessRows, if_pos h]

theorem claim_C6_witness :
    modelRowKey "a.b" = "model_a_b"
    ∧ checkModelAccessRows "a.b" ⟨2, 0, 2, 10⟩ none
        = [⟨⟨2, 0, 2, 10⟩, noAccessFileMsg, Severity.warning⟩]
    ∧ (splitOnChar '\n' ("head\x0arow1,model_x_y,1,1,1,1").data).any
        (fun line => containsList line (modelRowKey "a.b").data) = false
    ∧ checkModelAccessRows "a.b" ⟨2, 0, 2, 10⟩ (some "head\x0arow1,model_x_y,1,1,1,1")
        = [⟨⟨2, 0, 2, 10⟩, missingAccessMsg "a.b", Severity.warning⟩]
    ∧ (splitOnChar '\n' ("head\x0arow2,model_a_b,1,1,1,1").data).any
        (fun line => containsList line (modelRowKey "a.b").data) = true
    ∧ checkModelAccessRows "a.b" ⟨2, 0, 2, 10⟩ (some "head\x0arow2,model_a_b,1,1,1,1") = [] := by
  have h := claim_C6 "a.b" ⟨2, 0, 2, 10⟩
  refine ⟨by decide, h.2.1, by decide, ?_, by decide, ?_⟩
  · exact h.2.2.1 "head\x0arow1,model_x_y,1,1,1,1" (by decide)
  · exact h.2.2.2.1 "head\x0arow2,model_a_b,1,1,1,1" (by decide)

/-- Matching of the regex fragment `\s+` followed by a continuation `k`,
after at least one whitespace character has been consumed: with regex
backtracking, the rest of the pattern may start here or after consuming
more whitespace. -/
def wsThen (k : List Char → Bool) : List Char → Bool
  | [] => k []
  | c :: cs => k (c :: cs) || (isJsWsChar c && wsThen k cs)

/-- Matching of the regex fragment `\s+` followed by a continuation `k`:
one mandatory whitespace character, then `wsThen`. -/
def wsPlus (k : List Char → Bool) : List Char → Bool
  | [] => false
  | c :: cs => isJsWsChar c && wsThen k cs

/-- Whether the regex `from\s+\.\s+import\s+<name>` of `extension.ts` line
203 and `extension.js` line 123 matches starting exactly at the head of
`s` (`name` is taken literally). -/
def matchInitImportAt (name : List Char) (s : List Char) : Bool :=
  ("from").data.isPrefixOf s
    && wsPlus (fun s2 =>
        match s2 with
        | '.' :: s3 =>
          wsPlus (fun s4 =>
              ("import").data.isPrefixOf s4
                && wsPlus (fun s6 => name.isPrefixOf s6) (s4.drop 6)) s3
        | _ => false) (s.drop 4)

/-- JS `importPattern.test(content)`: the pattern matches somewhere in the
content (leftmost scan over all start positions). -/
def matchInitImport (name : List Char) : List Char → Bool
  | [] => false
  | s@(_ :: cs) => matchInitImportAt name s || matchInitImport name cs

/-- Message of `extension.ts` line 207 and `extension.js` line 128. -/
def initImportMsg : String :=
  "El archivo no está importado en el __init__.py del directorio."

/-- The missing-package-import rule: guard `fileName !== "__init__.py"`
from `extension.ts` line 196 / `extension.js` line 78, then the body of
`lintMissingInitImport` (`extension.js` lines 118-131, identical to
`extension.ts` lines 196-216): `none` for `initPyContent` models a failing
`workspace.fs.readFile` of the sibling `__init__.py` (silent skip); with
the file present, warn unless `from . import <moduleName>` matches, where
`moduleName` is the file name with its first `.py` removed. -/
def checkInitImport (fileName : String) (initPyContent : Option String) :
    List Diagnostic :=
  if fileName = "__init__.py" then []
  else
    match initPyContent with
    | none => []
    | some c =>
      if matchInitImport (jsReplaceFirst fileName ".py" "").data c.data then []
      else [⟨⟨0, 0, 0, 1⟩, initImportMsg, .warning⟩]

/-- C8: for a source-unit file other than the package initializer, an
existing initializer whose text does not match `from . import <base name>`
yields exactly one Warning; an absent initializer yields no finding
(silent skip); a matching initializer yields no finding. -/
theorem claim_C8 (fileName : String) (initPyContent : Option String)
    (hfn : fileName ≠ "__init__.py") :
    (initPyContent = none → checkInitImport fileName initPyContent = [])
    ∧ (∀ c, initPyContent = some c →
        matchInitImport (jsReplaceFirst fileName ".py" "").data c.data = false →
        checkInitImport fileName initPyContent
          = [⟨⟨0, 0, 0, 1⟩, initImportMsg, Severity.warning⟩])
    ∧ (∀ c, initPyContent = some c →
        matchInitImport (jsReplaceFirst fileName ".py" "").data c.data = true →
        checkInitImport fileName initPyContent = []) := by
  refine ⟨?_, ?_, ?_⟩
  · intro h
    rw [h, checkInitImport, if_neg hfn]
  · intro c hc hm
    rw [hc, checkInitImport, if_neg hfn]
    simp [hm]
  · intro c hc hm
    rw [hc, checkInitImport, if_neg hfn]
    simp [hm]

theorem claim_C8_witness :
    ("partner.py" : String) ≠ "__init__.py"
    ∧ checkInitImport "partner.py" none = []
    ∧ matchInitImport (jsReplaceFirst "partner.py" ".py" "").data
        ("from . import other").data = false
    ∧ checkInitImport "partner.py" (some "from . import other")
        = [⟨⟨0, 0, 0, 1⟩, initImportMsg, Severity.warning⟩]
    ∧ matchInitImport (jsReplaceFirst "partner.py" ".py" "").data
        ("from . import partner").data = true
    ∧ checkInitImport "partner.py" (some "from . import partner") = [] := by
  have h := claim_C8 "partner.py" (some "from . import other") (by decide)
  have h2 := claim_C8 "partner.py" (some "from . import partner") (by decide)
  have h3 := claim_C8 "partner.py" none (by decide)
  refine ⟨by decide, h3.1 rfl, by decide, ?_, by decide, ?_⟩
  · exact h.2.1 "from . import other" rfl (by decide)
  · exact h2.2.2 "from . import partner" rfl (by decide)

/-- The quote class `["\x27]` of the id-attribute regex of `extension.ts`
line 113. -/
def isQuoteChar (c : Char) : Bool :=
  c = '"' || c = '\x27'

/-- One left-to-right pass of `regex.exec` with `/id=["\x27]([^"\x27]+)["\x27]/g`
over a line (`extension.ts` lines 113-121): at each position try to match
`id=`, an opening quote, a non-empty maximal run of non-quote characters
(the captured id) and a closing quote; on success record the capture and
continue after the match, otherwise move one character right.  The fuel
argument strictly exceeds the list length, and every step consumes at
least one character, so it never runs out. -/
def scanIdsAux : Nat → List Char → List String
  | 0, _ => []
  | _ + 1, [] => []
  | fuel + 1, 'i' :: 'd' :: '=' :: q :: rest =>
    if isQuoteChar q then
      match rest.dropWhile (fun x => !(isQuoteChar x)) with
      | _ :: rest3 =>
        if (rest.takeWhile (fun x => !(isQuoteChar x))).isEmpty then
          scanIdsAux fuel ('d' :: '=' :: q :: rest)
        else
          String.mk (rest.takeWhile (fun x => !(isQuoteChar x)))
            :: scanIdsAux fuel rest3
      | [] => scanIdsAux fuel ('d' :: '=' :: q :: rest)
    else scanIdsAux fuel ('d' :: '=' :: q :: rest)
  | fuel + 1, _ :: cs => scanIdsAux fuel cs

/-- All ids captured on one line, left to right. -/
def scanIds (l : List Char) : List String :=
  scanIdsAux (l.length + 1) l

/-- `content.split("\n")` as char lists. -/
def fileLines (content : String) : List (List Char) :=
  splitOnChar '\n' content.data

/-- The `(id, lineNumber)` pairs collected by the `lines.forEach` loop of
`lintDataFile` (`extension.ts` lines 111-121), in scan order; a JS
`Map<string, number[]>` built from this list by pushing groups them per id
in first-occurrence key order. -/
def collectIds (content : String) : List (String × Nat) :=
  ((fileLines content).enum.map
    (fun p => (scanIds p.2).map (fun v => (v, p.1)))).flatten

/-- The key sequence of a JS `Map` built by insertion: first occurrences,
in order. -/
def dedupKeys : List String → List String
  | [] => []
  | k :: ks => k :: (dedupKeys ks).filter (fun x => decide (x ≠ k))

/-- Message of `extension.ts` line 129. -/
def dupIdMsg (v : String) : String :=
  "ID duplicado \x27" ++ v ++ "\x27 encontrado en el archivo"

/-- The occurrences of id value `v` in the collected pairs: the entry list
`ids.get(v)` of the JS `Map` (its line numbers, in push order, paired with
the id). -/
def idOcc (content v : String) : List (String × Nat) :=
  (collectIds content).filter (fun p => decide (p.1 = v))

/-- The findings one id key `k` contributes in the duplicate-id report loop
(`extension.ts` lines 124-136): with more than one recorded line, one
Error per recorded occurrence, anchored at `new vscode.Range(lineNum, 0,
lineNum, lines[lineNum].length)`, all carrying the same message. -/
def dupGroup (content k : String) : List Diagnostic :=
  if 1 < ((idOcc content k).map Prod.snd).length then
    ((idOcc content k).map Prod.snd).map
      (fun ln =>
        ⟨⟨ln, 0, ln, ((fileLines content).getD ln []).length⟩,
         dupIdMsg k, Severity.error⟩)
  else []

/-- The duplicate-id rule of `lintDataFile`: `ids.forEach` iterates the JS
`Map` in key-insertion order, which is first-occurrence order of the
collected ids. -/
def duplicateIdFindings (content : String) : List Diagnostic :=
  (dedupKeys ((collectIds content).map Prod.fst)).flatMap (dupGroup content)

theorem string_data_inj {a b : String} (h : a.data = b.data) : a = b := by
  cases a; cases b; cases h; rfl

theorem dupIdMsg_inj {a b : String} (h : dupIdMsg a = dupIdMsg b) : a = b := by
  unfold dupIdMsg at h
  have h2 := congrArg String.data h
  rw [strData_append, strData_append, strData_append, strData_append] at h2
  exact string_data_inj
    (List.append_cancel_left (List.append_cancel_right h2))

theorem mem_dedupKeys {v : String} : ∀ l, v ∈ dedupKeys l ↔ v ∈ l := by
  intro l
  induction l with
  | nil => simp [dedupKeys]
  | cons k ks ih =>
    rw [dedupKeys]
    by_cases hv : v = k
    · subst hv; simp
    · simp [List.mem_filter, ih, hv]

theorem nodup_dedupKeys : ∀ l : List String, (dedupKeys l).Nodup := by
  intro l
  induction l with
  | nil => simp [dedupKeys]
  | cons k ks ih =>
    rw [dedupKeys]
    refine List.nodup_cons.mpr ⟨?_, ih.filter _⟩
    intro hmem
    have hc := (List.mem_filter.mp hmem).2
    simp at hc

theorem filter_map_const {α β : Type} (l : List α) (f : α → β) (p : β → Bool)
    (b : Bool) (h : ∀ a, p (f a) = b) :
    (l.map f).filter p = if b then l.map f else [] := by
  induction l with
  | nil => cases b <;> simp
  | cons a t ih => cases b <;> simp_all [List.filter_cons, h, ih]

theorem length_flatMap_single {β : Type} (keys : List String)
    (F : String → List β) (v : String) (hnd : keys.Nodup) :
    (keys.flatMap (fun k => if k = v then F k else [])).length
      = if v ∈ keys then (F v).length else 0 := by
  induction keys with
  | nil => simp
  | cons k ks ih =>
    rw [List.flatMap_cons, List.length_append]
    have hnd2 := List.nodup_cons.mp hnd
    rw [ih hnd2.2]
    by_cases hk : k = v
    · subst hk
      rw [if_pos rfl, if_neg hnd2.1, if_pos (List.mem_cons_self k ks)]
      omega
    · rw [if_neg hk]
      simp only [List.length_nil, Nat.zero_add]
      by_cases hv : v ∈ ks
      · rw [if_pos hv, if_pos (List.mem_cons_of_mem k hv)]
      · rw [if_neg hv, if_neg (by
          rw [List.mem_cons]
          rintro (h | h)
          · exact hk h.symm
          · exact hv h)]

theorem filter_dupGroup_self (content v : String) :
    (dupGroup content v).filter (fun d => decide (d.message = dupIdMsg v))
      = dupGroup content v := by
  apply List.filter_eq_self.mpr
  intro d hd
  rw [dupGroup] at hd
  split at hd
  · obtain ⟨ln, -, rfl⟩ := List.mem_map.mp hd
    simp
  · simp at hd

theorem filter_dupGroup_ne (content k v : String) (hk : k ≠ v) :
    (dupGroup content k).filter (fun d => decide (d.message = dupIdMsg v))
      = [] := by
  apply List.filter_eq_nil_iff.mpr
  intro d hd
  rw [dupGroup] at hd
  split at hd
  · obtain ⟨ln, -, rfl⟩ := List.mem_map.mp hd
    simp only [decide_eq_true_eq]
    intro hmsg
    exact hk (dupIdMsg_inj hmsg)
  · simp at hd

theorem idOcc_eq_nil {content v : String}
    (h : v ∉ (collectIds content).map Prod.fst) : idOcc content v = [] := by
  rw [idOcc]
  apply List.filter_eq_nil_iff.mpr
  intro p hp
  simp only [decide_eq_true_eq]
  intro hpv
  exact h (List.mem_map.mpr ⟨p, hp, hpv⟩)

/-- C7: for every structured data document and every id value `v`, the
duplicate-identifier rule emits findings with message mentioning `v`
exactly when `v` occurs more than once among the collected id
declarations, and then exactly one finding per occurrence, all carrying
the identical message `dupIdMsg v`; every finding of the rule has Error
severity, so a value occurring once (or not at all) yields none. -/
theorem claim_C7 (content v : String) :
    ((duplicateIdFindings content).filter
        (fun d => decide (d.message = dupIdMsg v))).length
      = (if 2 ≤ (idOcc content v).length then (idOcc content v).length else 0)
    ∧ ∀ d ∈ duplicateIdFindings content, d.severity = Severity.error := by
  constructor
  · rw [duplicateIdFindings, List.filter_flatMap]
    have hfun : (fun k => (dupGroup content k).filter
          (fun d => decide (d.message = dupIdMsg v)))
        = fun k => if k = v then dupGroup content k else [] := by
      funext k
      by_cases hk : k = v
      · subst hk
        rw [if_pos rfl]
        exact filter_dupGroup_self content k
      · rw [if_neg hk]
        exact filter_dupGroup_ne content k v hk
    rw [hfun, length_flatMap_single _ _ v
      (nodup_dedupKeys ((collectIds content).map Prod.fst))]
    by_cases hv : v ∈ dedupKeys ((collectIds content).map Prod.fst)
    · rw [if_pos hv, dupGroup]
      have hlen : ((idOcc content v).map Prod.snd).length
          = (idOcc content v).length := List.length_map _ _
      split
      · rename_i hgt
        rw [List.length_map, hlen, if_pos (by omega)]
      · rename_i hgt
        rw [hlen] at hgt
        rw [List.length_nil, if_neg (by omega)]
    · rw [if_neg hv]
      have h0 : idOcc content v = [] :=
        idOcc_eq_nil (fun hmem => hv ((mem_dedupKeys _).mpr hmem))
      rw [h0]
      simp
  · intro d hd
    rw [duplicateIdFindings] at hd
    obtain ⟨k, -, hk⟩ := List.mem_flatMap.mp hd
    rw [dupGroup] at hk
    split at hk
    · obtain ⟨ln, -, rfl⟩ := List.mem_map.mp hk
      rfl
    · simp at hk

def c7Doc : String := "<a id=\"x\"/>\x0a<b id=\"x\"/>"

def c7Diag : Diagnostic := ⟨⟨0, 0, 0, 11⟩, dupIdMsg "x", Severity.error⟩

theorem claim_C7_witness :
    (idOcc c7Doc "x").length = 2
    ∧ ((duplicateIdFindings c7Doc).filter
        (fun d => decide (d.message = dupIdMsg "x"))).length = 2
    ∧ c7Diag ∈ duplicateIdFindings c7Doc
    ∧ c7Diag.severity = Severity.error := by
  have h := claim_C7 c7Doc "x"
  have hocc : (idOcc c7Doc "x").length = 2 := by rfl
  have hmem : c7Diag ∈ duplicateIdFindings c7Doc := by
    rw [show duplicateIdFindings c7Doc
        = [c7Diag, ⟨⟨1, 0, 1, 11⟩, dupIdMsg "x", Severity.error⟩] from rfl]
    exact List.mem_cons_self _ _
  refine ⟨hocc, ?_, hmem, h.2 c7Diag hmem⟩
  rw [h.1, hocc]
  decide

mutual
/-- The identifier texts that the `checkUnusedImports` usage scan counts
(`odooLinter.js` lines 241-251): identifier nodes for which
`isPartOfImport` (lines 275-285, a walk over parent pointers) is false.
The parent walk is modelled by threading down the flag "some strict
ancestor is an import statement node". -/
def identifiersOutsideImports (insideImport : Bool) : TSNode → List String
  | .node k t _ _ _ _ _ _ cs =>
    (if k = "identifier" && !insideImport then [t] else [])
      ++ identifiersOutsideImportsF
          (insideImport || (k = "import_statement" || k = "import_from_statement")) cs
/-- Child loop of `identifiersOutsideImports`. -/
def identifiersOutsideImportsF (insideImport : Bool) : TSForest → List String
  | .nil => []
  | .cons h t =>
    identifiersOutsideImports insideImport h
      ++ identifiersOutsideImportsF insideImport t
end

/-- JS `Map.prototype.set`: update in place when the key exists (keeping
its position), append otherwise. -/
def mapSet (m : List (String × TSNode)) (k : String) (v : TSNode) :
    List (String × TSNode) :=
  if m.any (fun p => p.1 = k) then
    m.map (fun p => if p.1 = k then (k, v) else p)
  else m ++ [(k, v)]

/-- The `import_statement` branch of `checkUnusedImports`
(`odooLinter.js` lines 202-217): `import x` / `import x as y`.
The alias is the text after `as` when present, otherwise the last dotted
segment; a falsy (empty) alias is skipped. -/
def importStmtEntry (node : TSNode) (m : List (String × TSNode)) :
    List (String × TSNode) :=
  match node.firstChild with
  | none => m
  | some importClause =>
    if importClause.kind = "dotted_name" then
      let aliasOpt :=
        match node.childAt 1 with
        | some aliasNode =>
          if aliasNode.kind = "as" then (node.childAt 2).map TSNode.text
          else (splitOnChar '.' importClause.text.data).getLast?.map String.mk
        | none => (splitOnChar '.' importClause.text.data).getLast?.map String.mk
      match aliasOpt with
      | some a => if a = "" then m else mapSet m a importClause
      | none => m
    else m

/-- The `import_from_statement` branch of `checkUnusedImports`
(`odooLinter.js` lines 218-237): for each named child of the `names` field
with kind `import_from_as_name`, bind the alias (or the imported name) to
the node; `importName.firstChild.text` faults on a childless node. -/
def importFromEntries (node : TSNode) (m : List (String × TSNode)) :
    Except Unit (List (String × TSNode)) :=
  match node.childForFieldName "names" with
  | none => pure m
  | some importList =>
    importList.namedChildren.foldlM
      (fun m imp =>
        if imp.kind = "import_from_as_name" then
          match imp.firstChild with
          | none => Except.error ()
          | some fc =>
            let a :=
              match imp.childForFieldName "alias" with
              | some an => an.text
              | none => fc.text
            if a = "" then pure m else pure (mapSet m a imp)
        else pure m) m

/-- The `importedNames` map of `checkUnusedImports` (`odooLinter.js` lines
199-238), in insertion order. -/
def collectImportedNames (root : TSNode) :
    Except Unit (List (String × TSNode)) :=
  (getNodesByType ["import_statement", "import_from_statement"] root).foldlM
    (fun m node =>
      if node.kind = "import_statement" then pure (importStmtEntry node m)
      else if node.kind = "import_from_statement" then importFromEntries node m
      else pure m) []

/-- Message of `odooLinter.js` line 268. -/
def unusedImportMsg (name : String) : String :=
  "\x27" ++ name ++ "\x27 is imported but unused"

/-- `checkUnusedImports(diagnostics, document, tree)` from `odooLinter.js`
lines 194-273: build the imported-name map, mark names used by identifier
nodes outside import statements, and warn on each unused entry in map
order. -/
def checkUnusedImportsE (root : TSNode) : Except Unit (List Diagnostic) := do
  let m ← collectImportedNames root
  let used := identifiersOutsideImports false root
  pure ((m.filter (fun p => !(used.contains p.1))).map
    (fun p => ⟨nodeRange p.2, unusedImportMsg p.1, .warning⟩))

/-- Message of `odooLinter.js` line 185. -/
def modelMissingNameMsg (className : String) : String :=
  "Odoo model \x27" ++ className ++ "\x27 is missing \x27_name\x27 attribute."

/-- `checkOdooModels(diagnostics, document, tree)` from `odooLinter.js`
lines 147-192: for each class definition extending `models.Model` or
`models.TransientModel` without a `_name` assignment, warn at the class
name node; dereferencing a missing `name` field child
(`classNameNode.startPosition` on `null`) faults. -/
def checkOdooModelsE (root : TSNode) : Except Unit (List Diagnostic) :=
  (getNodesByType ["class_definition"] root).foldlM
    (fun ds classNode =>
      match classNode.childForFieldName "superclasses" with
      | none => pure ds
      | some sup =>
        if sup.namedChildren.any
            (fun c => c.text = "models.Model" || c.text = "models.TransientModel") then
          let hasName :=
            match classNode.childForFieldName "body" with
            | none => false
            | some body =>
              (getNodesByType ["assignment"] body).any (fun a =>
                match a.childForFieldName "left" with
                | some l => l.text = "_name"
                | none => false)
          if hasName then pure ds
          else
            match classNode.childForFieldName "name" with
            | none => Except.error ()
            | some nameNode =>
              pure (ds ++ [⟨nodeRange nameNode,
                modelMissingNameMsg nameNode.text, .warning⟩])
        else pure ds) []

/-- Message of `odooLinter.js` line 79. -/
def notImportedMsg (files : List String) : String :=
  "The following models are not imported in __init__.py: "
    ++ String.intercalate ", " files

/-- `checkModelImports(diagnostics, document, tree)` from `odooLinter.js`
lines 45-83: `readDir` models `workspace.fs.readDirectory` of the models
directory (name and `FileType`, where `1` is `FileType.File`); compare the
sibling python files against the modules imported by `from . import ...`
statements and warn once listing the unimported files. -/
def checkModelImportsE (readDir : Except Unit (List (String × Nat)))
    (root : TSNode) : Except Unit (List Diagnostic) := do
  let allFiles ← readDir
  let pythonFiles := (allFiles.filter (fun p =>
      (p.2 == 1) && jsEndsWith p.1 ".py" && !(p.1 == "__init__.py"))).map
      (fun p => jsReplaceFirst p.1 ".py" "")
  let importedModules := (getNodesByType ["import_from_statement"] root).flatMap
    (fun importNode =>
      match importNode.childForFieldName "module_name" with
      | some mn =>
        if mn.text = "." then
          match importNode.childForFieldName "name" with
          | some importList => importList.namedChildren.map TSNode.text
          | none => []
        else []
      | none => [])
  let notImported := pythonFiles.filter (fun f => !(importedModules.contains f))
  if 0 < notImported.length then
    pure [⟨⟨0, 0, 0, 10⟩, notImportedMsg notImported, .warning⟩]
  else pure []

/-- `lintDocument(document)` from `odooLinter.js` lines 9-43 (first
variant): skip blank documents before parsing; parse (`parse` models
`this.parser.parse`, faulting or returning `null` or a tree); dispatch on
the file name to `checkModelImports`, `checkManifest`, or
`checkUnusedImports` followed by `checkOdooModels`; the single
`try/catch` around parsing and all rule calls turns any fault into an
empty result, discarding every diagnostic collected so far. -/
def lintDocument (parse : String → Except Unit (Option TSNode))
    (readDir : Except Unit (List (String × Nat)))
    (fileName text : String) : List Diagnostic :=
  if text.data.all isJsWsChar then []
  else
    match (do
      let tree? ← parse text
      match tree? with
      | none => pure []
      | some tree =>
        if containsStr fileName "/models/" && jsEndsWith fileName "__init__.py" then
          checkModelImportsE readDir tree
        else if jsEndsWith fileName "__manifest__.py" then
          pure (checkManifest tree)
        else if jsEndsWith fileName ".py" then do
          let d1 ← checkUnusedImportsE tree
          let d2 ← checkOdooModelsE tree
          pure (d1 ++ d2)
        else pure [] : Except Unit (List Diagnostic)) with
    | .error _ => []
    | .ok ds => ds

/-- C9: a document whose text is empty or all whitespace makes
`lintDocument` return the empty finding list before the parser or any rule
runs: the result is `[]` for every parser behaviour (even an always
faulting one) and every filesystem behaviour. -/
theorem claim_C9 (parse : String → Except Unit (Option TSNode))
    (readDir : Except Unit (List (String × Nat))) (fileName text : String)
    (hws : text.data.all isJsWsChar = true) :
    lintDocument parse readDir fileName text = [] := by
  rw [lintDocument, if_pos hws]

theorem claim_C9_witness :
    ("  \x0a\x09").data.all isJsWsChar = true
    ∧ lintDocument (fun _ => Except.error ()) (Except.error ())
        "mod/a.py" "  \x0a\x09" = [] :=
  ⟨by decide,
   claim_C9 (fun _ => Except.error ()) (Except.error ()) "mod/a.py" "  \x0a\x09"
     (by decide)⟩

def exDotted : TSNode :=
  TSNode.node "dotted_name" "os" true none 0 7 0 9 TSForest.nil

def exImportStmt : TSNode :=
  TSNode.node "import_statement" "import os" true none 0 0 0 9
    (TSForest.cons exDotted TSForest.nil)

def exSuperMember : TSNode :=
  TSNode.node "attribute" "models.Model" true none 1 8 1 20 TSForest.nil

def exSuper : TSNode :=
  TSNode.node "argument_list" "(models.Model)" true (some "superclasses") 1 7 1 21
    (TSForest.cons exSuperMember TSForest.nil)

/-- A malformed class node: an Odoo model class without a `name` field
child, on which `checkOdooModels` dereferences `null`. -/
def exClass : TSNode :=
  TSNode.node "class_definition" "class (models.Model): pass" true none 1 0 1 26
    (TSForest.cons exSuper TSForest.nil)

def exRoot : TSNode :=
  TSNode.node "module" "" true none 0 0 1 26
    (TSForest.cons exImportStmt (TSForest.cons exClass TSForest.nil))

def exWarn : Diagnostic :=
  ⟨⟨0, 7, 0, 9⟩, unusedImportMsg "os", Severity.warning⟩

def exParse : String → Except Unit (Option TSNode) :=
  fun _ => Except.ok (some exRoot)

/-- C1 counterexample: on the document parsed to `exRoot`, the
unused-import rule succeeds with one finding while `checkOdooModels`
faults internally, and `lintDocument` returns the empty list instead of
the non-faulting rule output `[exWarn]`: a single faulting rule does
suppress the findings of its sibling rule. -/
theorem claim_C1_counterexample :
    checkUnusedImportsE exRoot = Except.ok [exWarn]
    ∧ checkOdooModelsE exRoot = Except.error ()
    ∧ lintDocument exParse (Except.ok []) "mod/a.py" "x" = []
    ∧ ([] : List Diagnostic) ≠ [exWarn] := by
  refine ⟨rfl, rfl, rfl, ?_⟩
  simp

/-- C1 (amended): when a rule evaluation faults inside `lintDocument`, the
document-level `try/catch` discards every finding and returns the empty
list — the findings of the non-faulting sibling rules are lost, not
returned; only when no applicable rule faults does the result equal the
concatenation of the rule outputs. -/
theorem claim_C1_amended (parse : String → Except Unit (Option TSNode))
    (readDir : Except Unit (List (String × Nat))) (fileName text : String)
    (tree : TSNode)
    (hws : text.data.all isJsWsChar = false)
    (hp : parse text = Except.ok (some tree))
    (h1 : (containsStr fileName "/models/"
        && jsEndsWith fileName "__init__.py") = false)
    (h2 : jsEndsWith fileName "__manifest__.py" = false)
    (h3 : jsEndsWith fileName ".py" = true) :
    (∀ ds, checkUnusedImportsE tree = Except.ok ds →
      checkOdooModelsE tree = Except.error () →
      lintDocument parse readDir fileName text = [])
    ∧ (checkUnusedImportsE tree = Except.error () →
      lintDocument parse readDir fileName text = [])
    ∧ (∀ d1 d2, checkUnusedImportsE tree = Except.ok d1 →
      checkOdooModelsE tree = Except.ok d2 →
      lintDocument parse readDir fileName text = d1 ++ d2) := by
  refine ⟨?_, ?_, ?_⟩
  · intro ds h4 h5
    rw [lintDocument]
    simp [hws, hp, h1, h2, h3, h4, h5, Bind.bind, Except.bind]
  · intro h4
    rw [lintDocument]
    simp [hws, hp, h1, h2, h3, h4, Bind.bind, Except.bind]
  · intro d1 d2 h4 h5
    rw [lintDocument]
    simp [hws, hp, h1, h2, h3, h4, h5, Bind.bind, Except.bind,
      Pure.pure, Except.pure]

theorem claim_C1_amended_witness :
    ("x" : String).data.all isJsWsChar = false
    ∧ exParse "x" = Except.ok (some exRoot)
    ∧ (containsStr "mod/a.py" "/models/"
        && jsEndsWith "mod/a.py" "__init__.py") = false
    ∧ jsEndsWith "mod/a.py" "__manifest__.py" = false
    ∧ jsEndsWith "mod/a.py" ".py" = true
    ∧ checkUnusedImportsE exRoot = Except.ok [exWarn]
    ∧ checkOdooModelsE exRoot = Except.error ()
    ∧ lintDocument exParse (Except.ok []) "mod/a.py" "x" = [] := by
  refine ⟨by decide, rfl, by decide, by decide, by decide, rfl, rfl, ?_⟩
  exact (claim_C1_amended exParse (Except.ok []) "mod/a.py" "x" exRoot
    (by decide) rfl (by decide) (by decide) (by decide)).1 [exWarn] rfl rfl

/-- The effect of one `updateDiagnostics` run on the diagnostic store:
either the store is untouched (early return) or the document entry is
fully overwritten. -/
inductive StoreUpdate where
  | untouched
  | set (ds : List Diagnostic)

/-- `updateDiagnostics(document, diagnostics)` from `extension.ts` lines
46-68 (the JS variant in `extension.js` lines 49-65 has the language guard
in its caller): return early for other languages, clear the stored
diagnostics and stop when no module root is found, otherwise store the
output of the python or xml lint pass (`lintPython` / `lintXml` model
`lintPythonFile` / `lintDataFile` applied to the resolved module root). -/
def updateDiagnostics (languageId : String) (hasManifest : List String → Bool)
    (fileUri : List String)
    (lintPython lintXml : List String → List Diagnostic) : StoreUpdate :=
  if languageId ≠ "python" ∧ languageId ≠ "xml" then StoreUpdate.untouched
  else
    match findOdooModuleRoot hasManifest fileUri with
    | none => StoreUpdate.set []
    | some root =>
      if languageId = "python" then StoreUpdate.set (lintPython root)
      else StoreUpdate.set (lintXml root)

/-- `diagnostics.set(uri, ds)`: the new store after applying an update for
`uri`. -/
def applyUpdate (store : List String → List Diagnostic) (uri : List String) :
    StoreUpdate → List String → List Diagnostic
  | .untouched => store
  | .set ds => fun u => if u = uri then ds else store u

def dummyDiag : Diagnostic := ⟨⟨0, 0, 0, 1⟩, "stale", Severity.information⟩

/-- C10: for a python or xml document whose module-root resolution returns
NotFound, `updateDiagnostics` sets the stored diagnostics of that document
to the empty list — whatever was stored before is overwritten, for any
behaviour of the lint passes (no rule output can reach the store). -/
theorem claim_C10 (languageId : String) (hasManifest : List String → Bool)
    (fileUri : List String)
    (lintPython lintXml : List String → List Diagnostic)
    (hlang : languageId = "python" ∨ languageId = "xml")
    (hroot : findOdooModuleRoot hasManifest fileUri = none) :
    updateDiagnostics languageId hasManifest fileUri lintPython lintXml
      = StoreUpdate.set []
    ∧ ∀ store : List String → List Diagnostic,
        applyUpdate store fileUri
          (updateDiagnostics languageId hasManifest fileUri lintPython lintXml)
          fileUri = [] := by
  have hcond : ¬(languageId ≠ "python" ∧ languageId ≠ "xml") := by
    rcases hlang with h | h <;> simp [h]
  have hupd : updateDiagnostics languageId hasManifest fileUri lintPython lintXml
      = StoreUpdate.set [] := by
    rw [updateDiagnostics, if_neg hcond, hroot]
  refine ⟨hupd, fun store => ?_⟩
  rw [hupd]
  simp [applyUpdate]

theorem claim_C10_witness :
    (("python" : String) = "python" ∨ ("python" : String) = "xml")
    ∧ findOdooModuleRoot (fun _ => false) ["m", "a.py"] = none
    ∧ updateDiagnostics "python" (fun _ => false) ["m", "a.py"]
        (fun _ => [dummyDiag]) (fun _ => [dummyDiag]) = StoreUpdate.set []
    ∧ applyUpdate (fun _ => [dummyDiag]) ["m", "a.py"]
        (updateDiagnostics "python" (fun _ => false) ["m", "a.py"]
          (fun _ => [dummyDiag]) (fun _ => [dummyDiag])) ["m", "a.py"] = [] := by
  have h := claim_C10 "python" (fun _ => false) ["m", "a.py"]
    (fun _ => [dummyDiag]) (fun _ => [dummyDiag]) (Or.inl rfl) rfl
  exact ⟨Or.inl rfl, rfl, h.1, h.2 _⟩
